import Mathlib

/-!
Verification of `mwat56/apachelogger` (`apachelogger.go`).

Go strings are modelled as Lean `String` (a list of characters); every string
the library manipulates in the properties below is ASCII, where Go's byte
length and our character length agree.  Go `int` is modelled as `Int`
(the accumulated sizes and status codes stay far below 2^63, so wrap-around
is unreachable and omitted).  `time.Time` values are used by the code only
through (a) their `Format`ed textual stamp and (b) their `Date()` triple;
they are modelled by a pre-formatted stamp `String` resp. a `GoDate` record.

Standard-library calls made by the source (`net.SplitHostPort`,
`net.ParseIP`, `IP.To4`, `IP.String`, `strings.Replace`, `strings.TrimSpace`,
`strings.Trim`, `strings.Split`, the bracket regexp, `fmt.Sprintf` on the
fixed Apache pattern) are embedded from their documented Go semantics, since
the repository's behaviour depends on them.
-/

namespace ApacheLogger

/-! ### Character helpers -/

/-- Decimal digit test (`'0'..'9'`), as used by Go's IPv4 field parser. -/
def isDigitChar (c : Char) : Bool := 48 ≤ c.toNat && c.toNat ≤ 57

/-- Hexadecimal digit test (`0-9a-fA-F`), as used by Go's IPv6 parser. -/
def isHexChar (c : Char) : Bool :=
  isDigitChar c || (97 ≤ c.toNat && c.toNat ≤ 102) || (65 ≤ c.toNat && c.toNat ≤ 70)

/-- Numeric value of a hex digit (`0` for non-digits, which never occurs). -/
def hexVal (c : Char) : Nat :=
  if 48 ≤ c.toNat && c.toNat ≤ 57 then c.toNat - 48
  else if 97 ≤ c.toNat && c.toNat ≤ 102 then c.toNat - 87
  else if 65 ≤ c.toNat && c.toNat ≤ 70 then c.toNat - 55
  else 0

/-- Value of a run of hex digits, accumulated high-to-low as in Go. -/
def hexValue (run : List Char) : Nat := run.foldl (fun a c => 16 * a + hexVal c) 0

/-! ### `strings` package helpers used by the source -/

/-- Split a character list at every occurrence of `sep`
(Go `strings.Split` with a one-character separator). -/
def splitChar (sep : Char) : List Char → List (List Char)
  | [] => [[]]
  | c :: t =>
    if c = sep then [] :: splitChar sep t
    else
      match splitChar sep t with
      | [] => [[c]]
      | f :: r => (c :: f) :: r

/-- Inverse of `splitChar`: join pieces with the separator. -/
def joinChar (sep : Char) : List (List Char) → List Char
  | [] => []
  | [x] => x
  | x :: r => x ++ sep :: joinChar sep r

/-- One left-to-right, non-overlapping replace-all pass over `s`
(Go `strings.Replace(s, pat, rep, -1)` for a non-empty pattern), driven by
explicit fuel; `fuel ≥ s.length` makes the fuel inexhaustible. -/
def goReplaceF : Nat → List Char → List Char → List Char → List Char
  | 0, s, _, _ => s
  | fuel + 1, s, pat, rep =>
    match s with
    | [] => []
    | c :: t =>
      if pat.isPrefixOf s then rep ++ goReplaceF fuel (s.drop pat.length) pat rep
      else c :: goReplaceF fuel t pat rep

/-- Go `strings.Replace(s, pat, rep, -1)`.  The source only calls it with the
non-empty patterns `"\n"`, `"\t"` and `"  "`; for an empty pattern Go would
instead interleave `rep` between characters, a case that never arises here. -/
def goReplace (s pat rep : List Char) : List Char :=
  if pat.isEmpty then s else goReplaceF s.length s pat rep

/-- Go `unicode.IsSpace`: the White_Space code points. -/
def goIsSpace (c : Char) : Bool :=
  c.toNat ∈ [9, 10, 11, 12, 13, 32, 0x85, 0xA0, 0x1680,
    0x2000, 0x2001, 0x2002, 0x2003, 0x2004, 0x2005, 0x2006, 0x2007,
    0x2008, 0x2009, 0x200A, 0x2028, 0x2029, 0x202F, 0x205F, 0x3000]

/-- Go `strings.TrimSpace`: drop leading and trailing white space. -/
def goTrimSpace (l : List Char) : List Char :=
  ((l.dropWhile goIsSpace).reverse.dropWhile goIsSpace).reverse

/-- Go `strings.Trim(s, ",")`: drop leading and trailing commas. -/
def goTrimCommas (l : List Char) : List Char :=
  ((l.dropWhile (· = ',')).reverse.dropWhile (· = ',')).reverse

/-! ### `net.ParseIP` -/

/-- One dotted-decimal IPv4 field, per Go `netip.parseIPv4Fields`:
at least one character, digits only, no leading zero, value at most 255
(Go checks the bound as each digit is consumed; for digit strings the
accumulated value only grows, so checking the final value is equivalent). -/
def parseV4Field (f : List Char) : Option Nat :=
  if f.isEmpty then none
  else if !(f.all isDigitChar) then none
  else if 1 < f.length ∧ f.headD '0' = '0' then none
  else if 255 < f.foldl (fun a c => a * 10 + (c.toNat - 48)) 0 then none
  else some (f.foldl (fun a c => a * 10 + (c.toNat - 48)) 0)

/-- Combine the four parsed dotted fields into the octet list. -/
def parseV4Fields (f0 f1 f2 f3 : List Char) : Option (List Nat) :=
  match parseV4Field f0, parseV4Field f1, parseV4Field f2, parseV4Field f3 with
  | some a, some b, some c, some d => some [a, b, c, d]
  | _, _, _, _ => none

/-- Go `netip.parseIPv4`: exactly four valid dotted fields.
(Fewer fields are "too short", more are "too long", and every per-character
error of the Go loop corresponds to one failing field here.) -/
def parseIPv4 (l : List Char) : Option (List Nat) :=
  match splitChar '.' l with
  | [f0, f1, f2, f3] => parseV4Fields f0 f1 f2 f3
  | _ => none

/-- The 16-byte IPv4-in-IPv6 form Go's `net.ParseIP` returns for an IPv4
address (prefix `::ffff:`). -/
def v4InV6 (f : List Nat) : List Nat :=
  [0, 0, 0, 0, 0, 0, 0, 0, 0, 0, 255, 255] ++ f

/-- Final bookkeeping of Go `netip.parseIPv6`: the whole input must be
consumed; a short address needs an ellipsis, which expands to `16 - i`
zero bytes at its recorded position; a full address must not contain one. -/
def v6finish (sLeft : List Char) (ip : List Nat) (i : Nat) (ell : Option Nat) :
    Option (List Nat) :=
  if !sLeft.isEmpty then none
  else if i < 16 then
    match ell with
    | none => none
    | some e => some ((ip.take e ++ List.replicate (16 - i) 0 ++ ip.drop e).take 16)
  else
    match ell with
    | some _ => none
    | none => some ip

/-- Main loop of Go `netip.parseIPv6`: repeatedly read a hex group (at most
four digits), write its two bytes at position `i` of the 16-byte array, and
consume a following `':'`, tracking at most one `"::"` ellipsis; a `'.'`
directly after a group switches to a trailing embedded IPv4 address, which
must occupy the final four bytes.  Fuel only bounds the recursion; it is
inexhaustible for the initial value `s.length + 1`. -/
def v6loop : Nat → List Char → List Nat → Nat → Option Nat → Option (List Nat)
  | 0, _, _, _, _ => none
  | fuel + 1, s, ip, i, ell =>
    if 16 ≤ i then v6finish s ip i ell
    else
      let run := s.takeWhile isHexChar
      if run.isEmpty then none
      else if 4 < run.length then none
      else
        match s.drop run.length with
        | '.' :: _ =>
          if (ell.isNone && !(i == 12)) || 16 < i + 4 then none
          else
            match parseIPv4 s with
            | some [a, b, c, d] =>
              v6finish [] ((((ip.set i a).set (i + 1) b).set (i + 2) c).set (i + 3) d)
                (i + 4) ell
            | _ => none
        | [] =>
          let acc := hexValue run
          v6finish [] ((ip.set i (acc / 256)).set (i + 1) (acc % 256)) (i + 2) ell
        | ':' :: rest2 =>
          let acc := hexValue run
          let ip2 := (ip.set i (acc / 256)).set (i + 1) (acc % 256)
          match rest2 with
          | [] => none
          | ':' :: rest3 =>
            match ell with
            | some _ => none
            | none =>
              if rest3.isEmpty then v6finish [] ip2 (i + 2) (some (i + 2))
              else v6loop fuel rest3 ip2 (i + 2) (some (i + 2))
          | _ => v6loop fuel rest2 ip2 (i + 2) ell
        | _ => none

/-- Go `netip.parseIPv6` as called through `net.ParseIP`, which additionally
rejects every zoned address (any `'%'` makes `net.ParseIP` return `nil`). -/
def parseIPv6 (l : List Char) : Option (List Nat) :=
  if l.contains '%' then none
  else
    match l with
    | ':' :: ':' :: rest =>
      if rest.isEmpty then some (List.replicate 16 0)
      else v6loop (rest.length + 1) rest (List.replicate 16 0) 0 (some 0)
    | _ => v6loop (l.length + 1) l (List.replicate 16 0) 0 none

/-- Dispatch character of Go `netip.ParseAddr`: the first `'.'`, `':'` or
`'%'` decides between the IPv4 parser, the IPv6 parser, and failure. -/
def isSpecial (c : Char) : Bool := c = '.' || c = ':' || c = '%'

/-- Go `net.ParseIP`: returns the 16-byte value of the address, or `none`.
IPv4 addresses come back in the `::ffff:`-mapped 16-byte form. -/
def parseIP (l : List Char) : Option (List Nat) :=
  match l.find? isSpecial with
  | some c =>
    if c = '.' then (parseIPv4 l).map v4InV6
    else if c = ':' then parseIPv6 l
    else none
  | none => none

/-- Go `IP.To4`: the 4-byte view of a 4-byte address or of a 16-byte
IPv4-mapped (`::ffff:a.b.c.d`) address, `none` otherwise. -/
def to4 (ip : List Nat) : Option (List Nat) :=
  if ip.length = 4 then some ip
  else if ip.length = 16 ∧ ((ip.take 10).all (fun b => b = 0))
      ∧ ip.getD 10 0 = 255 ∧ ip.getD 11 0 = 255 then
    some (ip.drop 12)
  else none

/-! ### `IP.String` -/

/-- Decimal rendering of one octet (Go `uitoa`). -/
def renderOctet (n : Nat) : List Char := Nat.toDigits 10 n

/-- Lowercase hex rendering without leading zeros (Go `appendHex`). -/
def renderHex (n : Nat) : List Char := Nat.toDigits 16 n

/-- The 16-bit group `i` (0-based) of a 16-byte address. -/
def group16 (ip : List Nat) (i : Nat) : Nat :=
  256 * ip.getD (2 * i) 0 + ip.getD (2 * i + 1) 0

/-- The eight 16-bit groups of a 16-byte address. -/
def groupsOf (ip : List Nat) : List Nat := (List.range 8).map (group16 ip)

/-- Length of the zero-group run starting at position `i`. -/
def zeroRunLen (gs : List Nat) (i : Nat) : Nat :=
  ((gs.drop i).takeWhile (fun g => g = 0)).length

/-- The `::` compression window of Go `IP.String` (RFC 5952): the leftmost
strictly-longest run of zero groups, and only if it spans at least two
groups.  Go's loop advances past each run it measures; measuring at every
position instead is equivalent, because a proper suffix of a run is shorter
than the run itself and replacement requires a strictly greater length. -/
def bestRun (gs : List Nat) : Option (Nat × Nat) :=
  let step := fun (acc : Option (Nat × Nat)) (i : Nat) =>
    let len := zeroRunLen gs i
    let cur := match acc with | none => 0 | some (_, l) => l
    if 0 < len ∧ cur < len then some (i, len) else acc
  match (List.range 8).foldl step none with
  | some (i, len) => if 2 ≤ len then some (i, len) else none
  | none => none

/-- RFC 5952 rendering of a 16-byte (non-IPv4-mapped) address. -/
def renderV6 (ip : List Nat) : List Char :=
  let gs := groupsOf ip
  match bestRun gs with
  | none => List.intercalate [':'] (gs.map renderHex)
  | some (e0, len) =>
    List.intercalate [':'] ((gs.take e0).map renderHex)
      ++ ':' :: ':' :: List.intercalate [':'] ((gs.drop (e0 + len)).map renderHex)

/-- Go `IP.String`: dotted decimal whenever `To4` succeeds, RFC 5952 text for
a 16-byte address otherwise (other lengths, unreachable here, render as the
`"?"`-prefixed fallback). -/
def ipString (ip : List Nat) : List Char :=
  match to4 ip with
  | some [a, b, c, d] =>
    renderOctet a ++ ('.' :: (renderOctet b ++ ('.' :: (renderOctet c ++ ('.' :: renderOctet d)))))
  | _ => if ip.length = 16 then renderV6 ip else ['?']

/-! ### `getRemote` (`apachelogger.go` lines 270-321) -/

/-- Zero the last eight bytes of a 16-byte address:
`ip[8], …, ip[15] = 0, …, 0` (line 316 of the source). -/
def zero8 (ip : List Nat) : List Nat :=
  ((((((((ip.set 8 0).set 9 0).set 10 0).set 11 0).set 12 0).set 13 0).set 14 0).set 15 0)

/-- The anonymisation step of `getRemote` (lines 305-318): parse the address;
on failure return it unmodified; otherwise zero the last octet of an IPv4
address, or the last eight bytes of an IPv6 address, and re-render. -/
def anonymise (l : List Char) : List Char :=
  match parseIP l with
  | none => l
  | some ip =>
    match to4 ip with
    | some ip4 => ipString (ip4.set 3 0)
    | none => ipString (zero8 ip)

/-- `anonymise` on `String`. -/
def anonymiseStr (s : String) : String := String.mk (anonymise s.data)

/-- The character class `[0-9a-f:.]` of the bracket regexp `alBracketRE`. -/
def isBracketClass (c : Char) : Bool :=
  isDigitChar c || (97 ≤ c.toNat && c.toNat ≤ 102) || c = ':' || c = '.'

/-- `alBracketRE.FindStringSubmatch`: the capture of the leftmost match of
`\[([0-9a-f:.]+)\]`.  Since `']'` is outside the class, the greedy `+` can
only match the maximal class run following a `'['`. -/
def bracketSubmatch : List Char → Option (List Char)
  | [] => none
  | c :: t =>
    if c = '[' then
      let run := t.takeWhile isBracketClass
      if !run.isEmpty ∧ (t.drop run.length).headD ' ' = ']' then some run
      else bracketSubmatch t
    else bracketSubmatch t

/-- Index of the last occurrence of `c` in `l`. -/
def lastIdxOf (l : List Char) (c : Char) : Option Nat :=
  match l.reverse.findIdx? (· = c) with
  | none => none
  | some j => some (l.length - 1 - j)

/-- Go `net.SplitHostPort`.  All the distinct error returns of the Go
function (missing port, too many colons, stray brackets) collapse to `none`,
which is all `getRemote` observes. -/
def splitHostPort (l : List Char) : Option (List Char × List Char) :=
  match lastIdxOf l ':' with
  | none => none
  | some i =>
    if l.headD ' ' = '[' then
      match l.findIdx? (· = ']') with
      | none => none
      | some e =>
        if e + 1 = l.length then none
        else if e + 1 = i then
          let host := (l.take e).drop 1
          if (l.drop 1).contains '[' then none
          else if (l.drop (e + 1)).contains ']' then none
          else some (host, l.drop (i + 1))
        else none
    else
      let host := l.take i
      if host.contains ':' then none
      else if l.contains '[' then none
      else if l.contains ']' then none
      else some (host, l.drop (i + 1))

/-- The request fields `getRemote` and `goWebLog` consume.  A header that is
not set is the empty string, as returned by Go's `Header.Get`. -/
structure Request where
  remoteAddr : String
  xForwardedFor : String
  userAgent : String
  method : String
  path : String
  rawQuery : String
  fragment : String
  proto : String
  referer : String
  referrer : String
  urlUser : Option String
deriving Repr, DecidableEq

/-- Steps 1-2 of `getRemote` (lines 273-294): split host from port, falling
back to the bracket regexp and then to the raw string; then let a parseable
first `X-Forwarded-For` entry override the connection address (re-rendered
through `ip.String()`). -/
def baseRemote (aRequest : Request) : String :=
  let addr := aRequest.remoteAddr.data
  let rAddress :=
    match splitHostPort addr with
    | some (host, _) => host
    | none =>
      match bracketSubmatch addr with
      | some m => m
      | none => addr
  let xff := goTrimCommas aRequest.xForwardedFor.data
  if xff.isEmpty then String.mk rAddress
  else
    match parseIP ((splitChar ',' xff).headD []) with
    | some ip => String.mk (ipString ip)
    | none => String.mk rAddress

/-- `getRemote` (lines 270-321).  The globals `AnonymiseURLs` and
`AnonymiseErrors` are passed as parameters. -/
def getRemote (AnonymiseURLs AnonymiseErrors : Bool) (aRequest : Request)
    (aStatus : Int) : String :=
  let rAddress := baseRemote aRequest
  if AnonymiseURLs = false then rAddress
  else if AnonymiseErrors = false ∧ 400 ≤ aStatus then rAddress
  else anonymiseStr rAddress

/-! ### Other field extractors -/

/-- `getPath` (lines 199-209): path, plus `?query` and `#fragment` when
present. -/
def getPath (aRequest : Request) : String :=
  let rURL := aRequest.path
  let rURL := if 0 < aRequest.rawQuery.length then rURL ++ "?" ++ aRequest.rawQuery else rURL
  if 0 < aRequest.fragment.length then rURL ++ "#" ++ aRequest.fragment else rURL

/-- `getProto` (lines 221-227): default `"HTTP/1.0"` when empty. -/
def getProto (aRequest : Request) : String :=
  if aRequest.proto = "" then "HTTP/1.0" else aRequest.proto

/-- `getReferrer` (lines 239-249): `Referer`, then the misspelling
`Referrer`, then `"-"`. -/
def getReferrer (aRequest : Request) : String :=
  if 0 < aRequest.referer.length then aRequest.referer
  else if 0 < aRequest.referrer.length then aRequest.referrer
  else "-"

/-- `getUsername` (lines 330-338): the embedded URL user name when present
and non-empty, else `"-"`. -/
def getUsername (aRequest : Request) : String :=
  match aRequest.urlUser with
  | some user => if user = "" then "-" else user
  | none => "-"

/-! ### Formatter (`alApacheFormatPattern`) -/

/-- One formatted log record: the ten positional fields of
`alApacheFormatPattern`. -/
structure LogEntry where
  remote : String
  user : String
  stamp : String
  method : String
  target : String
  proto : String
  status : Int
  size : Int
  referrer : String
  agent : String
deriving Repr, DecidableEq

/-- `fmt.Sprintf(alApacheFormatPattern, …)` with its ten positional
arguments; the pattern interleaves them exactly as below and terminates the
line with a newline. -/
def sprintfApache (s1 s2 s3 s4 s5 s6 : String) (d1 d2 : Int) (s7 s8 : String) : String :=
  s1 ++ " - " ++ s2 ++ " [" ++ s3 ++ "] \"" ++ s4 ++ " " ++ s5 ++ " " ++ s6
    ++ "\" " ++ toString d1 ++ " " ++ toString d2 ++ " \"" ++ s7 ++ "\" \""
    ++ s8 ++ "\"" ++ "\n"

/-- Rendering of a `LogEntry` through the shared Apache pattern. -/
def formatApacheLine (e : LogEntry) : String :=
  sprintfApache e.remote e.user e.stamp e.method e.target e.proto e.status
    e.size e.referrer e.agent

/-! ### Channels and producers -/

/-- A Go string channel as the producers observe it: an open channel with its
buffered contents, or a closed one. -/
inductive TChan where
  | active (buf : List String)
  | closed
deriving Repr, DecidableEq

/-- A Go channel send: enqueue on an open channel; panic
(`send on closed channel`) on a closed one.  The panic is the `error`
branch, to be intercepted by a deferred `recover`. -/
def chanSend : TChan → String → Except Unit TChan
  | TChan.active buf, msg => Except.ok (TChan.active (buf ++ [msg]))
  | TChan.closed, _ => Except.error ()

/-- The process-wide values `goCustomLog` reads: `alCurrentUser` and
`filepath.Base(os.Args[0])`. -/
structure Env where
  currentUser : String
  progName : String
deriving Repr, DecidableEq

/-- Message sanitisation of `goCustomLog` (lines 358-360): newlines become
`"; "`, tabs become spaces, double spaces collapse to one (a single
`strings.Replace` pass each), and the result is trimmed. -/
def sanitizeMessage (m : String) : String :=
  String.mk (goTrimSpace (goReplace (goReplace (goReplace m.data "\n".data "; ".data)
    "\t".data " ".data) "  ".data " ".data))

/-- The message text actually formatted (lines 355-361): the `"PING"`
heartbeat for an empty message, the sanitised text otherwise. -/
def customMessage (aMessage : String) : String :=
  if aMessage = "" then "PING" else sanitizeMessage aMessage

/-- The log line `goCustomLog` builds (lines 363-375): fixed localhost
address, current user, the formatted time stamp, the `LOG`/`ERR` tag in the
method position, the message as target, the `HTTP/intern` pseudo-protocol,
status 500, the message length as size, the sender in the referrer position
and a fixed module identifier in the agent position. -/
def customLogLine (env : Env) (aSender aMessage aMethod aTime : String) : String :=
  let aSender := if aSender = "" then env.progName else aSender
  let aMessage := customMessage aMessage
  sprintfApache "127.0.0.1" env.currentUser aTime aMethod aMessage "HTTP/intern"
    500 aMessage.length aSender "mwat56/apachelogger"

/-- `goCustomLog` (lines 348-376): build the line and send it; a panicking
send on a closed channel is caught by the deferred `recover` and the
function returns with the message discarded. -/
def goCustomLog (env : Env) (aSender aMessage aMethod aTime : String)
    (aLogChannel : TChan) : TChan :=
  match chanSend aLogChannel (customLogLine env aSender aMessage aMethod aTime) with
  | Except.ok ch => ch
  | Except.error _ => aLogChannel

/-- `Err` (lines 518-520): a custom `ERR` message on the error queue. -/
def Err (env : Env) (aSender aMessage aTime : String) (alErrorQueue : TChan) : TChan :=
  goCustomLog env aSender aMessage "ERR" aTime alErrorQueue

/-- `Log` (lines 527-529): a custom `LOG` message on the access queue. -/
def Log (env : Env) (aSender aMessage aTime : String) (alAccessQueue : TChan) : TChan :=
  goCustomLog env aSender aMessage "LOG" aTime alAccessQueue

/-! ### `tLogWriter` -/

/-- The logging state of `tLogWriter` (lines 31-36).  The embedded
`http.ResponseWriter` (to which every write and header is forwarded
unchanged) is outside the logging state and omitted; `when` is the formatted
access-time stamp. -/
structure tLogWriter where
  size : Int
  status : Int
  when : String
deriving Repr, DecidableEq

/-- `tLogWriter.Write` (lines 107-115): default the status to 200 on a first
write, and add the chunk length to the running size.  The data itself is
forwarded to the wrapped writer. -/
def tLogWriter.Write (lw : tLogWriter) (aData : String) : tLogWriter :=
  let lw := if lw.status = 0 then { lw with status := 200 } else lw
  { lw with size := lw.size + aData.length }

/-- `tLogWriter.WriteHeader` (lines 124-127): record the status verbatim. -/
def tLogWriter.WriteHeader (lw : tLogWriter) (aStatus : Int) : tLogWriter :=
  { lw with status := aStatus }

/-- A sequence of `Write` calls. -/
def tLogWriter.writeAll (lw : tLogWriter) (chunks : List String) : tLogWriter :=
  chunks.foldl tLogWriter.Write lw

/-! ### `goWebLog` -/

/-- The request log line `goWebLog` builds (lines 488-505). -/
def webLogLine (AnonymiseURLs AnonymiseErrors : Bool) (aLogger : tLogWriter)
    (aRequest : Request) : String :=
  let agent := if aRequest.userAgent = "" then "-" else aRequest.userAgent
  sprintfApache (getRemote AnonymiseURLs AnonymiseErrors aRequest aLogger.status)
    (getUsername aRequest) aLogger.when aRequest.method (getPath aRequest)
    (getProto aRequest) aLogger.status aLogger.size (getReferrer aRequest) agent

/-- `goWebLog` (lines 483-508): send the formatted line, then reset the
writer's status and size to zero.  When the send panics on a closed channel
the deferred `recover` intercepts it and the function returns at once, so
the reset line never runs and the message is discarded. -/
def goWebLog (AnonymiseURLs AnonymiseErrors : Bool) (aLogger : tLogWriter)
    (aRequest : Request) (aLogChannel : TChan) : TChan × tLogWriter :=
  match chanSend aLogChannel (webLogLine AnonymiseURLs AnonymiseErrors aLogger aRequest) with
  | Except.ok ch => (ch, { aLogger with status := 0, size := 0 })
  | Except.error _ => (aLogChannel, aLogger)

/-! ### `compareDayStamps` -/

/-- The `(year, month, day)` triple of Go `time.Time.Date()`, the only part
of the stored `alLastLoggingDate` the code consumes. -/
structure GoDate where
  year : Int
  month : Int
  day : Int
deriving Repr, DecidableEq

/-- `compareDayStamps` (lines 175-190) with the global `alLastLoggingDate`
made explicit: report whether the calendar day changed, and store the
current date exactly when it did. -/
def compareDayStamps (alLastLoggingDate currentLoggingDate : GoDate) :
    Bool × GoDate :=
  let changed := (currentLoggingDate.day ≠ alLastLoggingDate.day)
    || (currentLoggingDate.month ≠ alLastLoggingDate.month)
    || (currentLoggingDate.year ≠ alLastLoggingDate.year)
  (changed, if changed then currentLoggingDate else alLastLoggingDate)

/-- A sequence of `compareDayStamps` calls threading the stored date,
returning all results and the final stored date. -/
def runStamps (st : GoDate) : List GoDate → List Bool × GoDate
  | [] => ([], st)
  | d :: rest =>
    let r := compareDayStamps st d
    let rs := runStamps r.2 rest
    (r.1 :: rs.1, rs.2)

/-! ## Helper lemmas -/

/-- `compareDayStamps` in closed form: the result is `false` with the date
kept when the `Date()` triples coincide, `true` with the date replaced
otherwise. -/
theorem compareDayStamps_eq (st d : GoDate) :
    compareDayStamps st d = if d = st then (false, st) else (true, d) := by
  obtain ⟨y1, m1, dd1⟩ := st
  obtain ⟨y2, m2, dd2⟩ := d
  unfold compareDayStamps
  by_cases h : (GoDate.mk y2 m2 dd2) = (GoDate.mk y1 m1 dd1)
  · simp only [GoDate.mk.injEq] at h
    obtain ⟨hy, hm, hd⟩ := h
    subst hy; subst hm; subst hd
    simp
  · have hch : ((dd2 ≠ dd1 : Bool) || (m2 ≠ m1 : Bool) || (y2 ≠ y1 : Bool)) = true := by
      simp only [Bool.or_eq_true, decide_eq_true_eq]
      by_contra hc
      push_neg at hc
      exact h (by simp [GoDate.mk.injEq, hc.1.1, hc.1.2, hc.2])
    rw [if_neg h, hch]
    simp

/-- `Write` adds exactly the chunk length to the running size. -/
theorem tLogWriter_Write_size (lw : tLogWriter) (aData : String) :
    (lw.Write aData).size = lw.size + aData.length := by
  by_cases h : lw.status = 0 <;> simp [tLogWriter.Write, h]

/-- Cons/cons step of `List.isPrefixOf`. -/
theorem isPrefixOf_cons_cons (c a : Char) (cs t : List Char) :
    ((c :: cs).isPrefixOf (a :: t)) = (c == a && cs.isPrefixOf t) := rfl

/-- Replacing the single-character pattern `[c]` eliminates every occurrence
of `c`, provided the replacement does not contain `c`. -/
theorem goReplaceF_single_eliminates (c : Char) (rep : List Char)
    (hrep : c ∉ rep) :
    ∀ (fuel : Nat) (s : List Char), s.length ≤ fuel →
      c ∉ goReplaceF fuel s [c] rep := by
  intro fuel
  induction fuel with
  | zero =>
    intro s hs
    have : s = [] := List.length_eq_zero.mp (Nat.le_zero.mp hs)
    subst this
    simp [goReplaceF]
  | succ m ih =>
    intro s hs
    match s with
    | [] => simp [goReplaceF]
    | a :: t =>
      simp only [goReplaceF]
      by_cases hp : ([c].isPrefixOf (a :: t)) = true
      · rw [if_pos hp]
        intro hmem
        rcases List.mem_append.mp hmem with hmm | hmm
        · exact hrep hmm
        · have hlen : t.length ≤ m := by
            simpa using Nat.le_of_succ_le_succ (by simpa using hs)
          exact ih t hlen (by simpa using hmm)
      · rw [if_neg hp]
        intro hmem
        rcases List.mem_cons.mp hmem with hmm | hmm
        · subst hmm
          exact hp (by simp [isPrefixOf_cons_cons, List.isPrefixOf])
        · have hlen : t.length ≤ m := by
            simpa using Nat.le_of_succ_le_succ (by simpa using hs)
          exact ih t hlen hmm

/-- A replace pass introduces no character that is absent from both the
input and the replacement. -/
theorem goReplaceF_no_new_char (x : Char) (pat rep : List Char)
    (hrep : x ∉ rep) :
    ∀ (fuel : Nat) (s : List Char), x ∉ s → x ∉ goReplaceF fuel s pat rep := by
  intro fuel
  induction fuel with
  | zero => intro s hs; simpa [goReplaceF] using hs
  | succ m ih =>
    intro s hs
    match s with
    | [] => simp [goReplaceF]
    | a :: t =>
      simp only [goReplaceF]
      by_cases hp : (pat.isPrefixOf (a :: t)) = true
      · rw [if_pos hp]
        intro hmem
        rcases List.mem_append.mp hmem with hmm | hmm
        · exact hrep hmm
        · exact ih _ (fun hm => hs (List.drop_subset _ _ hm)) hmm
      · rw [if_neg hp]
        intro hmem
        rcases List.mem_cons.mp hmem with hmm | hmm
        · exact hs (hmm ▸ List.mem_cons_self a t)
        · exact ih t (fun hm => hs (List.mem_cons_of_mem a hm)) hmm

/-- `goReplace` versions of the two replace lemmas. -/
theorem goReplace_single_eliminates (c : Char) (s rep : List Char)
    (hrep : c ∉ rep) : c ∉ goReplace s [c] rep :=
  goReplaceF_single_eliminates c rep hrep s.length s le_rfl

/-- Character preservation for `goReplace`. -/
theorem goReplace_no_new_char (x : Char) (s pat rep : List Char)
    (hs : x ∉ s) (hrep : x ∉ rep) : x ∉ goReplace s pat rep := by
  unfold goReplace
  by_cases hpat : pat.isEmpty = true
  · rw [if_pos hpat]; exact hs
  · rw [if_neg hpat]
    exact goReplaceF_no_new_char x pat rep hrep s.length s hs

/-- `dropWhile` is idempotent. -/
theorem dropWhile_dropWhile (p : Char → Bool) (l : List Char) :
    (l.dropWhile p).dropWhile p = l.dropWhile p := by
  induction l with
  | nil => rfl
  | cons a t ih =>
    by_cases h : p a = true
    · rw [List.dropWhile_cons_of_pos h]; exact ih
    · rw [List.dropWhile_cons_of_neg h, List.dropWhile_cons_of_neg h]

/-- The head surviving a `dropWhile` fails the predicate. -/
theorem dropWhile_head_false (p : Char → Bool) :
    ∀ (l : List Char) (a : Char) (t : List Char),
      l.dropWhile p = a :: t → p a = false := by
  intro l
  induction l with
  | nil => intro a t h; cases h
  | cons b r ih =>
    intro a t h
    by_cases hb : p b = true
    · rw [List.dropWhile_cons_of_pos hb] at h
      exact ih a t h
    · rw [List.dropWhile_cons_of_neg hb] at h
      cases h
      exact Bool.not_eq_true _ |>.mp hb

/-- `dropWhile` yields a suffix. -/
theorem dropWhile_isSuffix (p : Char → Bool) (l : List Char) :
    (l.dropWhile p).IsSuffix l := by
  induction l with
  | nil => exact List.suffix_refl _
  | cons a t ih =>
    by_cases h : p a = true
    · rw [List.dropWhile_cons_of_pos h]
      exact ih.trans (List.suffix_cons a t)
    · rw [List.dropWhile_cons_of_neg h]

/-- `goTrimSpace` removes no inner characters: membership is preserved
downward. -/
theorem goTrimSpace_subset (x : Char) (l : List Char)
    (hx : x ∈ goTrimSpace l) : x ∈ l := by
  unfold goTrimSpace at hx
  have h1 := (dropWhile_isSuffix goIsSpace
    ((l.dropWhile goIsSpace).reverse)).subset (List.mem_reverse.mp hx)
  exact (dropWhile_isSuffix goIsSpace l).subset (List.mem_reverse.mp h1)

/-- `goTrimSpace` is idempotent: the trimmed text has no leading or trailing
white space left. -/
theorem goTrimSpace_idem (l : List Char) :
    goTrimSpace (goTrimSpace l) = goTrimSpace l := by
  unfold goTrimSpace
  set p := goIsSpace with hp
  set u := l.dropWhile p with hu
  set v := u.reverse.dropWhile p with hv
  have hpref : v.reverse.IsPrefix u := by
    obtain ⟨w, hw⟩ := dropWhile_isSuffix p u.reverse
    exact ⟨w.reverse, by rw [← List.reverse_append, hw, List.reverse_reverse]⟩
  have hstep1 : v.reverse.dropWhile p = v.reverse := by
    cases hvr : v.reverse with
    | nil => simp
    | cons a t =>
      obtain ⟨w, hw⟩ := hpref
      rw [hvr] at hw
      have hu2 : u.dropWhile p = u := by rw [hu, dropWhile_dropWhile]
      have hpa : p a = false := by
        apply dropWhile_head_false p u a (t ++ w)
        rw [hu2, ← hw]; rfl
      rw [List.dropWhile_cons_of_neg (by simp [hpa])]
  rw [hstep1, List.reverse_reverse, hv, dropWhile_dropWhile]

/-- C7: sanitisation of a non-empty custom message replaces every newline by
`"; "`, every tab by a space and every double space by a single one (one
left-to-right `strings.Replace` pass each, in that order) and trims the
result: the sanitised text is what `goCustomLog` formats, contains no
newline and no tab, and carries no surrounding white space (trimming it
again changes nothing). -/
theorem sanitizeMessage_spec (aMessage : String) (h : aMessage ≠ "") :
    customMessage aMessage = sanitizeMessage aMessage ∧
      sanitizeMessage aMessage = String.mk (goTrimSpace (goReplace (goReplace
        (goReplace aMessage.data "\n".data "; ".data)
        "\t".data " ".data) "  ".data " ".data)) ∧
      '\n' ∉ (sanitizeMessage aMessage).data ∧
      '\t' ∉ (sanitizeMessage aMessage).data ∧
      goTrimSpace (sanitizeMessage aMessage).data = (sanitizeMessage aMessage).data := by
  have hr0 : '\n' ∉ goReplace aMessage.data "\n".data "; ".data :=
    goReplace_single_eliminates '\n' aMessage.data "; ".data (by decide)
  have hr1n : '\n' ∉ goReplace (goReplace aMessage.data "\n".data "; ".data)
      "\t".data " ".data :=
    goReplace_no_new_char '\n' _ _ _ hr0 (by decide)
  have hr2n : '\n' ∉ goReplace (goReplace (goReplace aMessage.data "\n".data "; ".data)
      "\t".data " ".data) "  ".data " ".data :=
    goReplace_no_new_char '\n' _ _ _ hr1n (by decide)
  have hr1t : '\t' ∉ goReplace (goReplace aMessage.data "\n".data "; ".data)
      "\t".data " ".data :=
    goReplace_single_eliminates '\t' _ " ".data (by decide)
  have hr2t : '\t' ∉ goReplace (goReplace (goReplace aMessage.data "\n".data "; ".data)
      "\t".data " ".data) "  ".data " ".data :=
    goReplace_no_new_char '\t' _ _ _ hr1t (by decide)
  refine ⟨by simp [customMessage, h], rfl, ?_, ?_, ?_⟩
  · intro hmem
    exact hr2n (goTrimSpace_subset _ _ hmem)
  · intro hmem
    exact hr2t (goTrimSpace_subset _ _ hmem)
  · exact goTrimSpace_idem _

/-- Witness for C7 on a concrete message containing a newline, a tab and
surrounding white space. -/
theorem sanitizeMessage_spec_witness :
    (" a\n\tb " : String) ≠ "" ∧
      customMessage " a\n\tb " = sanitizeMessage " a\n\tb " ∧
      sanitizeMessage " a\n\tb " = "a; b" := by
  refine ⟨by decide, (sanitizeMessage_spec " a\n\tb " (by decide)).1, by decide⟩

/-- `getD` after `set` at a different index is unchanged. -/
theorem set_getD_ne (l : List Nat) (j k v : Nat) (h : j ≠ k) :
    (l.set j v).getD k 0 = l.getD k 0 := by
  induction l generalizing j k with
  | nil => simp
  | cons a t ih =>
    cases j with
    | zero =>
      cases k with
      | zero => exact absurd rfl h
      | succ k2 => simp [List.set]
    | succ j2 =>
      cases k with
      | zero => simp [List.set]
      | succ k2 =>
        simp only [List.set, List.getD_cons_succ]
        exact ih j2 k2 (by omega)

/-- `getD` after `set _ 0` at the same index is zero (also past the end of
the list, where `set` is the identity and `getD` falls back to the
default). -/
theorem set_getD_self (l : List Nat) (j : Nat) : (l.set j 0).getD j 0 = 0 := by
  induction l generalizing j with
  | nil => simp
  | cons a t ih =>
    cases j with
    | zero => simp [List.set]
    | succ j2 =>
      simp only [List.set, List.getD_cons_succ]
      exact ih j2

/-- `zero8` does not touch the first eight bytes. -/
theorem zero8_getD_lt (l : List Nat) (k : Nat) (hk : k < 8) :
    (zero8 l).getD k 0 = l.getD k 0 := by
  unfold zero8
  rw [set_getD_ne _ 15 k 0 (by omega), set_getD_ne _ 14 k 0 (by omega),
    set_getD_ne _ 13 k 0 (by omega), set_getD_ne _ 12 k 0 (by omega),
    set_getD_ne _ 11 k 0 (by omega), set_getD_ne _ 10 k 0 (by omega),
    set_getD_ne _ 9 k 0 (by omega), set_getD_ne _ 8 k 0 (by omega)]

/-- `zero8` zeroes bytes 8 through 15. -/
theorem zero8_getD_ge (l : List Nat) (k : Nat) (h1 : 8 ≤ k) (h2 : k < 16) :
    (zero8 l).getD k 0 = 0 := by
  unfold zero8
  interval_cases k
  · rw [set_getD_ne _ 15 8 0 (by omega), set_getD_ne _ 14 8 0 (by omega),
      set_getD_ne _ 13 8 0 (by omega), set_getD_ne _ 12 8 0 (by omega),
      set_getD_ne _ 11 8 0 (by omega), set_getD_ne _ 10 8 0 (by omega),
      set_getD_ne _ 9 8 0 (by omega), set_getD_self]
  · rw [set_getD_ne _ 15 9 0 (by omega), set_getD_ne _ 14 9 0 (by omega),
      set_getD_ne _ 13 9 0 (by omega), set_getD_ne _ 12 9 0 (by omega),
      set_getD_ne _ 11 9 0 (by omega), set_getD_ne _ 10 9 0 (by omega),
      set_getD_self]
  · rw [set_getD_ne _ 15 10 0 (by omega), set_getD_ne _ 14 10 0 (by omega),
      set_getD_ne _ 13 10 0 (by omega), set_getD_ne _ 12 10 0 (by omega),
      set_getD_ne _ 11 10 0 (by omega), set_getD_self]
  · rw [set_getD_ne _ 15 11 0 (by omega), set_getD_ne _ 14 11 0 (by omega),
      set_getD_ne _ 13 11 0 (by omega), set_getD_ne _ 12 11 0 (by omega),
      set_getD_self]
  · rw [set_getD_ne _ 15 12 0 (by omega), set_getD_ne _ 14 12 0 (by omega),
      set_getD_ne _ 13 12 0 (by omega), set_getD_self]
  · rw [set_getD_ne _ 15 13 0 (by omega), set_getD_ne _ 14 13 0 (by omega),
      set_getD_self]
  · rw [set_getD_ne _ 15 14 0 (by omega), set_getD_self]
  · rw [set_getD_self]

/-- `splitChar` never returns the empty list of pieces. -/
theorem splitChar_ne_nil (sep : Char) (l : List Char) : splitChar sep l ≠ [] := by
  cases l with
  | nil => simp [splitChar]
  | cons c t =>
    unfold splitChar
    by_cases h : c = sep
    · simp [h]
    · rw [if_neg h]
      cases hs : splitChar sep t <;> simp

/-- Joining the pieces of `splitChar` restores the original list. -/
theorem splitChar_join (sep : Char) (l : List Char) :
    joinChar sep (splitChar sep l) = l := by
  induction l with
  | nil => rfl
  | cons c t ih =>
    unfold splitChar
    by_cases h : c = sep
    · rw [if_pos h]
      cases hs : splitChar sep t with
      | nil => exact absurd hs (splitChar_ne_nil sep t)
      | cons f r =>
        have hj : joinChar sep ([] :: f :: r) = sep :: joinChar sep (f :: r) := rfl
        rw [hs] at ih
        rw [hj, ih, h]
    · rw [if_neg h]
      cases hs : splitChar sep t with
      | nil => exact absurd hs (splitChar_ne_nil sep t)
      | cons f r =>
        rw [hs] at ih
        cases r with
        | nil =>
          have hf : joinChar sep [f] = f := rfl
          rw [hf] at ih
          show c :: f = c :: t
          rw [ih]
        | cons g r2 =>
          have h1 : joinChar sep ((c :: f) :: g :: r2)
              = (c :: f) ++ sep :: joinChar sep (g :: r2) := rfl
          have h2 : joinChar sep (f :: g :: r2)
              = f ++ sep :: joinChar sep (g :: r2) := rfl
          show joinChar sep ((c :: f) :: g :: r2) = c :: t
          rw [h1, ← ih, h2]
          rfl

/-- `splitChar` peels off a separator-free piece before a separator. -/
theorem splitChar_append (sep : Char) (x rest : List Char) (hx : sep ∉ x) :
    splitChar sep (x ++ sep :: rest) = x :: splitChar sep rest := by
  induction x with
  | nil =>
    show splitChar sep (sep :: rest) = [] :: splitChar sep rest
    conv_lhs => rw [splitChar]
    rw [if_pos rfl]
  | cons a t ih =>
    have ha : ¬ (a = sep) := fun hae => hx (hae ▸ List.mem_cons_self a t)
    show splitChar sep (a :: (t ++ sep :: rest)) = (a :: t) :: splitChar sep rest
    conv_lhs => rw [splitChar]
    rw [if_neg ha, ih (fun hm => hx (List.mem_cons_of_mem a hm))]

/-- A decimal digit is not one of the parser dispatch characters. -/
theorem digit_not_special (c : Char) (h : isDigitChar c = true) :
    isSpecial c = false := by
  rcases Bool.eq_false_or_eq_true (isSpecial c) with ht | ht
  · exfalso
    unfold isSpecial at ht
    simp only [Bool.or_eq_true, decide_eq_true_eq] at ht
    rcases ht with (he | he) | he <;> (subst he; exact absurd h (by decide))
  · exact ht

/-- An all-digit piece contains no dot. -/
theorem no_sep_of_digits (x : List Char) (hx : x.all isDigitChar = true) :
    '.' ∉ x :=
  fun hm => absurd (List.all_eq_true.mp hx _ hm) (by decide)

/-- On a list of digits and dots that contains a dot, the dispatch scan of
`ParseAddr` finds `'.'` first. -/
theorem find_special_digits_dot (l : List Char)
    (hall : ∀ c ∈ l, isDigitChar c = true ∨ c = '.') (hdot : '.' ∈ l) :
    l.find? isSpecial = some '.' := by
  induction l with
  | nil => cases hdot
  | cons a t ih =>
    by_cases ha : a = '.'
    · subst ha
      exact List.find?_cons_of_pos t (by decide)
    · have hd : isDigitChar a = true :=
        (hall a (List.mem_cons_self a t)).resolve_right ha
      rw [List.find?_cons_of_neg t (by simp [digit_not_special a hd])]
      refine ih (fun c hc => hall c (List.mem_cons_of_mem a hc)) ?_
      rcases List.mem_cons.mp hdot with he | hm
      · exact absurd he.symm ha
      · exact hm

/-- A successfully parsed IPv4 field is all digits and below 256. -/
theorem parseV4Field_props (f : List Char) (v : Nat)
    (h : parseV4Field f = some v) : f.all isDigitChar = true ∧ v < 256 := by
  unfold parseV4Field at h
  by_cases h1 : f.isEmpty = true
  · rw [if_pos h1] at h; exact Option.noConfusion h
  rw [if_neg h1] at h
  by_cases h2 : (!(f.all isDigitChar)) = true
  · rw [if_pos h2] at h; exact Option.noConfusion h
  rw [if_neg h2] at h
  by_cases h3 : 1 < f.length ∧ f.headD '0' = '0'
  · rw [if_pos h3] at h; exact Option.noConfusion h
  rw [if_neg h3] at h
  by_cases h4 : 255 < f.foldl (fun a c => a * 10 + (c.toNat - 48)) 0
  · rw [if_pos h4] at h; exact Option.noConfusion h
  rw [if_neg h4] at h
  have hv := Option.some.inj h
  refine ⟨by simpa using h2, by omega⟩

set_option maxRecDepth 100000 in
/-- Printing then parsing an octet is the identity, and the printed digits
are decimal. -/
theorem octet_roundtrip : ∀ n : Nat, n < 256 →
    parseV4Field (renderOctet n) = some n
      ∧ (renderOctet n).all isDigitChar = true := by decide

/-- Inversion of `parseIPv4`: the four dotted fields and their values. -/
theorem parseIPv4_inv (l : List Char) (a b c d : Nat)
    (h : parseIPv4 l = some [a, b, c, d]) :
    ∃ f0 f1 f2 f3, splitChar '.' l = [f0, f1, f2, f3] ∧
      parseV4Field f0 = some a ∧ parseV4Field f1 = some b ∧
      parseV4Field f2 = some c ∧ parseV4Field f3 = some d := by
  unfold parseIPv4 at h
  rcases hs : splitChar '.' l with _ | ⟨f0, _ | ⟨f1, _ | ⟨f2, _ | ⟨f3, _ | ⟨f4, r⟩⟩⟩⟩⟩
  · rw [hs] at h; exact Option.noConfusion h
  · rw [hs] at h; exact Option.noConfusion h
  · rw [hs] at h; exact Option.noConfusion h
  · rw [hs] at h; exact Option.noConfusion h
  · rw [hs] at h
    have hf : parseV4Fields f0 f1 f2 f3 = some [a, b, c, d] := h
    unfold parseV4Fields at hf
    rcases h0 : parseV4Field f0 with _ | a2
    · rw [h0] at hf; exact Option.noConfusion hf
    rcases h1 : parseV4Field f1 with _ | b2
    · rw [h0, h1] at hf; exact Option.noConfusion hf
    rcases h2 : parseV4Field f2 with _ | c2
    · rw [h0, h1, h2] at hf; exact Option.noConfusion hf
    rcases h3 : parseV4Field f3 with _ | d2
    · rw [h0, h1, h2, h3] at hf; exact Option.noConfusion hf
    rw [h0, h1, h2, h3] at hf
    have h5 : a2 = a ∧ b2 = b ∧ c2 = c ∧ d2 = d := by
      have := Option.some.inj hf
      simpa using this
    obtain ⟨rfl, rfl, rfl, rfl⟩ := h5
    exact ⟨f0, f1, f2, f3, rfl, h0, h1, h2, h3⟩
  · rw [hs] at h; exact Option.noConfusion h

/-- On any input the IPv4 parser accepts, the anonymisation step rebuilds
the address with the last octet zeroed. -/
theorem anonymise_of_parseIPv4 (l : List Char) (a b c d : Nat)
    (h : parseIPv4 l = some [a, b, c, d]) :
    anonymise l = ipString [a, b, c, 0] := by
  obtain ⟨f0, f1, f2, f3, hs, h0, h1, h2, h3⟩ := parseIPv4_inv l a b c d h
  have hl : l = f0 ++ '.' :: (f1 ++ '.' :: (f2 ++ '.' :: f3)) := by
    have hj := splitChar_join '.' l
    rw [hs] at hj
    have : joinChar '.' [f0, f1, f2, f3]
        = f0 ++ '.' :: (f1 ++ '.' :: (f2 ++ '.' :: f3)) := rfl
    rw [this] at hj
    exact hj.symm
  have hmem : ∀ ch ∈ l, isDigitChar ch = true ∨ ch = '.' := by
    intro ch hch
    rw [hl] at hch
    simp only [List.mem_append, List.mem_cons] at hch
    rcases hch with hm | hm | hm | hm | hm | hm | hm
    · exact Or.inl (List.all_eq_true.mp (parseV4Field_props f0 a h0).1 _ hm)
    · exact Or.inr hm
    · exact Or.inl (List.all_eq_true.mp (parseV4Field_props f1 b h1).1 _ hm)
    · exact Or.inr hm
    · exact Or.inl (List.all_eq_true.mp (parseV4Field_props f2 c h2).1 _ hm)
    · exact Or.inr hm
    · exact Or.inl (List.all_eq_true.mp (parseV4Field_props f3 d h3).1 _ hm)
  have hdot : '.' ∈ l := by
    rw [hl]; simp
  have hip : parseIP l = some (v4InV6 [a, b, c, d]) := by
    unfold parseIP
    rw [find_special_digits_dot l hmem hdot]
    show (if ('.' : Char) = '.' then (parseIPv4 l).map v4InV6
      else if ('.' : Char) = ':' then parseIPv6 l else none)
        = some (v4InV6 [a, b, c, d])
    rw [if_pos rfl, h]
    rfl
  unfold anonymise
  rw [hip]
  rfl

/-- The dotted rendering of `[a, b, c, 0]`. -/
theorem ipString_v4 (a b c : Nat) :
    ipString [a, b, c, 0]
      = renderOctet a ++ '.' :: (renderOctet b ++ '.' :: (renderOctet c ++ '.' :: ['0'])) :=
  rfl

/-- Parsing the rendered, already-anonymised address recovers its octets. -/
theorem parseIPv4_render (a b c : Nat) (ha : a < 256) (hb : b < 256)
    (hc : c < 256) :
    parseIPv4 (renderOctet a ++ '.' :: (renderOctet b ++ '.' :: (renderOctet c ++ '.' :: ['0'])))
      = some [a, b, c, 0] := by
  have ra := octet_roundtrip a ha
  have rb := octet_roundtrip b hb
  have rc := octet_roundtrip c hc
  have hsp : splitChar '.' (renderOctet a ++ '.' :: (renderOctet b ++ '.' :: (renderOctet c ++ '.' :: ['0'])))
      = [renderOctet a, renderOctet b, renderOctet c, ['0']] := by
    rw [splitChar_append '.' _ _ (no_sep_of_digits _ ra.2),
      splitChar_append '.' _ _ (no_sep_of_digits _ rb.2),
      splitChar_append '.' _ _ (no_sep_of_digits _ rc.2)]
    rfl
  unfold parseIPv4
  rw [hsp]
  show parseV4Fields (renderOctet a) (renderOctet b) (renderOctet c) ['0']
    = some [a, b, c, 0]
  unfold parseV4Fields
  rw [ra.1, rb.1, rc.1]
  rfl

/-! ## Claim theorems -/

/-- C2: on every string the dotted-decimal IPv4 parser accepts, the
anonymisation step of `getRemote` yields the address with exactly the last
octet replaced by `0`, and anonymising the result again is the identity. -/
theorem anonymise_ipv4_zeroes_last_octet (s : String) (a b c d : Nat)
    (h : parseIPv4 s.data = some [a, b, c, d]) :
    anonymiseStr s = String.mk (ipString [a, b, c, 0]) ∧
      anonymiseStr (anonymiseStr s) = anonymiseStr s := by
  have h1 := anonymise_of_parseIPv4 s.data a b c d h
  have hfst : anonymiseStr s = String.mk (ipString [a, b, c, 0]) := by
    unfold anonymiseStr
    rw [h1]
  refine ⟨hfst, ?_⟩
  obtain ⟨f0, f1, f2, f3, hs, h0, h1', h2', h3'⟩ := parseIPv4_inv s.data a b c d h
  have ha := (parseV4Field_props f0 a h0).2
  have hb := (parseV4Field_props f1 b h1').2
  have hc := (parseV4Field_props f2 c h2').2
  have h2 : parseIPv4 (ipString [a, b, c, 0]) = some [a, b, c, 0] := by
    rw [ipString_v4]
    exact parseIPv4_render a b c ha hb hc
  have h3 := anonymise_of_parseIPv4 (ipString [a, b, c, 0]) a b c 0 h2
  rw [hfst]
  unfold anonymiseStr
  rw [show (String.mk (ipString [a, b, c, 0])).data = ipString [a, b, c, 0] from rfl, h3]

/-- Witness for C2 at the concrete address from the source's doc comment. -/
theorem anonymise_ipv4_zeroes_last_octet_witness :
    parseIPv4 (String.data "91.64.58.179") = some [91, 64, 58, 179] ∧
      anonymiseStr "91.64.58.179" = "91.64.58.0" ∧
      anonymiseStr (anonymiseStr "91.64.58.179") = anonymiseStr "91.64.58.179" := by
  have h := anonymise_ipv4_zeroes_last_octet "91.64.58.179" 91 64 58 179 (by decide)
  refine ⟨by decide, ?_, h.2⟩
  rw [h.1]
  decide

/-- C3 (amended): for every valid IPv6 address that Go does not classify as
IPv4 (`To4` fails, i.e. the address is not IPv4-mapped), the anonymisation
step re-renders the 16-byte value with its last eight bytes zeroed: the
first four 16-bit groups are preserved and the trailing four groups become
zero. -/
theorem anonymise_ipv6_zeroes_tail (s : String) (ip : List Nat)
    (hp : parseIP s.data = some ip) (h4 : to4 ip = none) :
    anonymiseStr s = String.mk (ipString (zero8 ip)) ∧
      (∀ i, i < 4 → group16 (zero8 ip) i = group16 ip i) ∧
      (∀ i, 4 ≤ i → i < 8 → group16 (zero8 ip) i = 0) := by
  refine ⟨?_, ?_, ?_⟩
  · unfold anonymiseStr anonymise
    rw [hp]
    show String.mk (match to4 ip with
      | some ip4 => ipString (ip4.set 3 0)
      | none => ipString (zero8 ip)) = String.mk (ipString (zero8 ip))
    rw [h4]
  · intro i hi
    unfold group16
    rw [zero8_getD_lt ip (2 * i) (by omega), zero8_getD_lt ip (2 * i + 1) (by omega)]
  · intro i hge hlt
    unfold group16
    rw [zero8_getD_ge ip (2 * i) (by omega) (by omega),
      zero8_getD_ge ip (2 * i + 1) (by omega) (by omega)]

/-- Counterexample to C3 as stated: `"::ffff:1.2.3.4"` is a valid IPv6
address (it parses, through the IPv6 grammar, to the IPv4-mapped 16-byte
value), yet the anonymisation step treats it as IPv4 and zeroes only the
last octet, returning `"1.2.3.0"`; the value of that output differs from the
address with its trailing four groups zeroed, which the claim predicts. -/
theorem anonymise_ipv6_zeroes_tail_counterexample :
    parseIP (String.data "::ffff:1.2.3.4")
        = some [0, 0, 0, 0, 0, 0, 0, 0, 0, 0, 255, 255, 1, 2, 3, 4] ∧
      anonymiseStr "::ffff:1.2.3.4" = "1.2.3.0" ∧
      parseIP (String.data "1.2.3.0")
        ≠ some (zero8 [0, 0, 0, 0, 0, 0, 0, 0, 0, 0, 255, 255, 1, 2, 3, 4]) :=
  ⟨by decide, by decide, by decide⟩

/-- Witness for C3 (amended) at a concrete plain IPv6 address. -/
theorem anonymise_ipv6_zeroes_tail_witness :
    to4 [32, 1, 13, 184, 0, 0, 0, 0, 0, 0, 0, 0, 0, 0, 0, 1] = none ∧
      anonymiseStr "2001:db8::1" = "2001:db8::" ∧
      group16 (zero8 [32, 1, 13, 184, 0, 0, 0, 0, 0, 0, 0, 0, 0, 0, 0, 1]) 7 = 0 := by
  have h := anonymise_ipv6_zeroes_tail "2001:db8::1"
    [32, 1, 13, 184, 0, 0, 0, 0, 0, 0, 0, 0, 0, 0, 0, 1] (by decide) (by decide)
  refine ⟨by decide, ?_, h.2.2 7 (by norm_num) (by norm_num)⟩
  rw [h.1]
  decide

/-- C4: when the address reaching the anonymisation step does not parse as
an IP, it is returned unmodified — no zeroing is fabricated and no failure
is raised — both for the step itself and for the full `getRemote` call that
reaches it (`AnonymiseURLs` on, error exception not applicable). -/
theorem getRemote_invalid_ip_fallback (AnonymiseErrors : Bool)
    (aRequest : Request) (aStatus : Int)
    (hparse : parseIP (baseRemote aRequest).data = none)
    (hreach : AnonymiseErrors = true ∨ aStatus < 400) :
    getRemote true AnonymiseErrors aRequest aStatus = baseRemote aRequest ∧
      anonymiseStr (baseRemote aRequest) = baseRemote aRequest := by
  have hanon : anonymiseStr (baseRemote aRequest) = baseRemote aRequest := by
    unfold anonymiseStr anonymise
    rw [hparse]
  refine ⟨?_, hanon⟩
  unfold getRemote
  have hcond : ¬ (AnonymiseErrors = false ∧ 400 ≤ aStatus) := by
    rcases hreach with h | h
    · rintro ⟨h2, _⟩
      rw [h] at h2
      cases h2
    · rintro ⟨_, h2⟩
      omega
  rw [if_neg (by simp), if_neg hcond]
  exact hanon

/-- Witness for C4 at a host name that is no IP address. -/
theorem getRemote_invalid_ip_fallback_witness :
    parseIP (baseRemote
        ⟨"localhost:8080", "", "", "", "", "", "", "", "", "", none⟩).data = none ∧
      getRemote true false
        ⟨"localhost:8080", "", "", "", "", "", "", "", "", "", none⟩ 200
        = "localhost" := by
  have h := getRemote_invalid_ip_fallback false
    ⟨"localhost:8080", "", "", "", "", "", "", "", "", "", none⟩ 200 (by decide)
    (Or.inr (by norm_num))
  refine ⟨by decide, ?_⟩
  rw [h.1]
  decide

/-- C1: whenever the error-anonymisation flag is off and the final status is
at least 400, `getRemote` returns the full address produced by host/port
splitting and the `X-Forwarded-For` override, for either value of the global
`AnonymiseURLs` flag. -/
theorem getRemote_error_full_address (AnonymiseURLs : Bool) (aRequest : Request)
    (aStatus : Int) (h : 400 ≤ aStatus) :
    getRemote AnonymiseURLs false aRequest aStatus = baseRemote aRequest := by
  cases AnonymiseURLs <;> simp [getRemote, h]

/-- Witness for C1 at a concrete erroring request, with both flag values. -/
theorem getRemote_error_full_address_witness :
    (400 : Int) ≤ 404 ∧
      getRemote true false
        ⟨"91.64.58.179:4711", "", "", "", "", "", "", "", "", "", none⟩ 404
        = "91.64.58.179" ∧
      getRemote false false
        ⟨"91.64.58.179:4711", "", "", "", "", "", "", "", "", "", none⟩ 404
        = "91.64.58.179" := by
  refine ⟨by norm_num, ?_, ?_⟩
  · rw [getRemote_error_full_address true _ 404 (by norm_num)]
    decide
  · rw [getRemote_error_full_address false _ 404 (by norm_num)]
    decide

/-- C5: sending on an already-closed queue panics inside the producer, where
the deferred `recover` intercepts it: both `goCustomLog` and `goWebLog`
return normally, the message is discarded, the channel is untouched, and
`goWebLog` leaves the writer untouched as well. -/
theorem closed_channel_send_recovered (env : Env)
    (aSender aMessage aMethod aTime : String) (AnonymiseURLs AnonymiseErrors : Bool)
    (aLogger : tLogWriter) (aRequest : Request) :
    goCustomLog env aSender aMessage aMethod aTime TChan.closed = TChan.closed ∧
      goWebLog AnonymiseURLs AnonymiseErrors aLogger aRequest TChan.closed
        = (TChan.closed, aLogger) :=
  ⟨rfl, rfl⟩

/-- C6: `Write` defaults an unset (zero) status to 200 and keeps a set one,
adds exactly the chunk length to the size, leaves the access time alone, and
over any sequence of writes the size accumulates the sum of all chunk
lengths. -/
theorem tLogWriter_Write_accumulates (lw : tLogWriter) (aData : String)
    (chunks : List String) :
    ((lw.Write aData).status = if lw.status = 0 then 200 else lw.status) ∧
      (lw.Write aData).size = lw.size + aData.length ∧
      (lw.Write aData).when = lw.when ∧
      (lw.writeAll chunks).size
        = lw.size + (chunks.map (fun chunk => (chunk.length : Int))).sum := by
  refine ⟨?_, tLogWriter_Write_size lw aData, ?_, ?_⟩
  · by_cases h : lw.status = 0 <;> simp [tLogWriter.Write, h]
  · by_cases h : lw.status = 0 <;> simp [tLogWriter.Write, h]
  · induction chunks generalizing lw with
    | nil => simp [tLogWriter.writeAll]
    | cons chunk rest ih =>
      have step : (tLogWriter.writeAll lw (chunk :: rest))
          = tLogWriter.writeAll (lw.Write chunk) rest := rfl
      rw [step, ih (lw.Write chunk), tLogWriter_Write_size lw chunk]
      simp [add_assoc]

/-- C8: a custom `LOG`/`ERR` line keeps the full ten-field Apache layout:
the tag in the method position, the message (or the `"PING"` heartbeat when
empty) in the target position, the fixed `HTTP/intern` pseudo-protocol,
status 500, the message length as size, the sender (defaulted to the program
name) in the referrer position, and the fixed module identifier in the
user-agent position. -/
theorem customLogLine_layout (env : Env) (aSender aMessage aTime : String) :
    customLogLine env aSender aMessage "ERR" aTime = formatApacheLine
      { remote := "127.0.0.1", user := env.currentUser, stamp := aTime,
        method := "ERR", target := customMessage aMessage,
        proto := "HTTP/intern", status := 500,
        size := (customMessage aMessage).length,
        referrer := if aSender = "" then env.progName else aSender,
        agent := "mwat56/apachelogger" } ∧
      customLogLine env aSender aMessage "LOG" aTime = formatApacheLine
        { remote := "127.0.0.1", user := env.currentUser, stamp := aTime,
          method := "LOG", target := customMessage aMessage,
          proto := "HTTP/intern", status := 500,
          size := (customMessage aMessage).length,
          referrer := if aSender = "" then env.progName else aSender,
          agent := "mwat56/apachelogger" } ∧
      customMessage "" = "PING" :=
  ⟨rfl, rfl, rfl⟩

/-- C9: a `compareDayStamps` call reports `false` and keeps the stored date
on the same calendar day, reports `true` exactly on a day change (storing
the new date, so that an immediately following call on the same day reports
`false` again); over any run of calls within one calendar day the result is
`true` exactly once when the run crosses a day boundary and never
otherwise. -/
theorem compareDayStamps_rollover (st d : GoDate) (n : Nat) :
    (d = st → compareDayStamps st d = (false, st)) ∧
      (d ≠ st → compareDayStamps st d = (true, d)) ∧
      (compareDayStamps (compareDayStamps st d).2 d).1 = false ∧
      (runStamps st (List.replicate n d)).1.count true
        = if 0 < n ∧ d ≠ st then 1 else 0 := by
  refine ⟨fun h => by rw [compareDayStamps_eq, if_pos h],
    fun h => by rw [compareDayStamps_eq, if_neg h], ?_, ?_⟩
  · by_cases h : d = st
    · simp [compareDayStamps_eq, h]
    · simp [compareDayStamps_eq, h]
  · induction n generalizing st with
    | zero => simp [runStamps]
    | succ m ih =>
      have hrep : List.replicate (m + 1) d = d :: List.replicate m d := rfl
      rw [hrep]
      by_cases h : d = st
      · have : runStamps st (d :: List.replicate m d)
            = ((false, st).1 :: (runStamps st (List.replicate m d)).1,
               (runStamps st (List.replicate m d)).2) := by
          simp [runStamps, compareDayStamps_eq, if_pos h, h]
        rw [this]
        simp only [List.count_cons]
        rw [ih st]
        simp [h]
      · have : runStamps st (d :: List.replicate m d)
            = ((true, d).1 :: (runStamps d (List.replicate m d)).1,
               (runStamps d (List.replicate m d)).2) := by
          simp [runStamps, compareDayStamps_eq, if_neg h]
        rw [this]
        simp only [List.count_cons]
        rw [ih d]
        simp [h]

/-- Witness for C9: a simulated midnight boundary followed by two further
calls on the new day yields `true` exactly once. -/
theorem compareDayStamps_rollover_witness :
    compareDayStamps ⟨2025, 10, 10⟩ ⟨2025, 10, 11⟩ = (true, ⟨2025, 10, 11⟩) ∧
      (runStamps ⟨2025, 10, 10⟩ (List.replicate 3 ⟨2025, 10, 11⟩)).1.count true = 1 ∧
      (runStamps ⟨2025, 10, 10⟩ (List.replicate 2 ⟨2025, 10, 10⟩)).1.count true = 0 := by
  have h1 := compareDayStamps_rollover ⟨2025, 10, 10⟩ ⟨2025, 10, 11⟩ 3
  have h2 := compareDayStamps_rollover ⟨2025, 10, 10⟩ ⟨2025, 10, 10⟩ 2
  refine ⟨h1.2.1 (by decide), ?_, ?_⟩
  · rw [h1.2.2.2]; decide
  · rw [h2.2.2.2]; decide

/-- C10: after a successful dispatch `goWebLog` resets the writer's status
and size to zero while the recorded access time survives unchanged (and the
dispatched line is exactly the formatted request line). -/
theorem goWebLog_resets_writer (AnonymiseURLs AnonymiseErrors : Bool)
    (aLogger : tLogWriter) (aRequest : Request) (buf : List String) :
    goWebLog AnonymiseURLs AnonymiseErrors aLogger aRequest (TChan.active buf)
      = (TChan.active (buf ++ [webLogLine AnonymiseURLs AnonymiseErrors aLogger aRequest]),
         { size := 0, status := 0, when := aLogger.when }) :=
  rfl

end ApacheLogger
